import Mathlib

/-!
Shallow embedding of the request/response marshalling logic of the
`glpilib2` GLPI client (`src/glpilib2/basic_wrapper.py`), together with
theorems checking the natural-language specification against it.

Python values that flow through the marshalling code are modelled by the
inductive `PyVal`; Python dictionaries are modelled as insertion-ordered
association lists, mirroring CPython's ordered-dict semantics.
-/

namespace Glpilib2

/-- Model of the Python values handled by the wrapper: JSON scalars,
lists (also standing in for tuples) and string-keyed JSON objects. -/
inductive PyVal where
  | str (s : String)
  | int (n : Int)
  | bool (b : Bool)
  | pynone
  | list (xs : List PyVal)
  | dict (kvs : List (String × PyVal))

mutual

/-- Python `==` on `PyVal` (structural equality of the JSON-like values). -/
def beqPyVal : PyVal → PyVal → Bool
  | .str a, .str b => a == b
  | .int a, .int b => a == b
  | .bool a, .bool b => a == b
  | .pynone, .pynone => true
  | .list xs, .list ys => beqPyList xs ys
  | .dict xs, .dict ys => beqPyFields xs ys
  | _, _ => false

/-- Elementwise Python `==` on lists of values. -/
def beqPyList : List PyVal → List PyVal → Bool
  | [], [] => true
  | x :: xs, y :: ys => beqPyVal x y && beqPyList xs ys
  | _, _ => false

/-- Elementwise Python `==` on the entries of string-keyed objects. -/
def beqPyFields : List (String × PyVal) → List (String × PyVal) → Bool
  | [], [] => true
  | (k, x) :: xs, (k', y) :: ys => k == k' && beqPyVal x y && beqPyFields xs ys
  | _, _ => false

end

/-- A criteria tree as accepted by `add_criteria_to_parameters`: a node is a
scalar, a mapping (`dict`) or a sequence (`list`), mirroring the dynamic
type dispatch in the Python source. -/
inductive Criteria where
  | str (s : String)
  | int (n : Int)
  | bool (b : Bool)
  | dict (kvs : List (String × Criteria))
  | list (cs : List Criteria)

/-- The error raised by the criteria flattener on an unsupported node: the
source raises `NotImplementedError` (the spec calls it
`UnsupportedCriteriaError`). -/
inductive CritError where
  | notImplemented
deriving DecidableEq

mutual

/-- Embeds `add_criteria_to_parameters(criteria, parameters, father)`
(basic_wrapper.py lines 120-134).  The Python function appends to the
`parameters` list in place; here the grown list is returned, and raising
`NotImplementedError` becomes the `Except` error case. -/
def add_criteria_to_parameters (criteria : Criteria)
    (parameters : List (String × Criteria)) (father : String) :
    Except CritError (List (String × Criteria)) :=
  match criteria with
  | .dict kvs => addCriteriaDict kvs parameters father
  | .list cs => addCriteriaList cs 0 parameters father
  | _ => .error .notImplemented

/-- The `for key, value in criteria.items()` loop of
`add_criteria_to_parameters`: build `path = f"{father}[{key}]"`, recurse
when the value is a list, otherwise append `(path, value)`. -/
def addCriteriaDict (kvs : List (String × Criteria))
    (parameters : List (String × Criteria)) (father : String) :
    Except CritError (List (String × Criteria)) :=
  match kvs with
  | [] => .ok parameters
  | (key, value) :: rest =>
    let path := father ++ "[" ++ key ++ "]"
    match value with
    | .list cs => do
        let ps ← add_criteria_to_parameters (.list cs) parameters path
        addCriteriaDict rest ps father
    | v => addCriteriaDict rest (parameters ++ [(path, v)]) father

/-- The `for i in range(len(criteria))` loop of
`add_criteria_to_parameters`: recurse into each element under
`f"{father}[{i}]"`. -/
def addCriteriaList (cs : List Criteria) (i : Nat)
    (parameters : List (String × Criteria)) (father : String) :
    Except CritError (List (String × Criteria)) :=
  match cs with
  | [] => .ok parameters
  | c :: rest => do
      let ps ← add_criteria_to_parameters c parameters
        (father ++ "[" ++ toString i ++ "]")
      addCriteriaList rest (i + 1) ps father

end

mutual

/-- The flattening algorithm exactly as the spec section 4.3 words it:
a mapping node recurses into each key appending `[key]`, a sequence node
recurses into each index appending `[index]`, and a leaf scalar appends a
`(path, value)` pair.  Written from the spec, to be compared with
`add_criteria_to_parameters` (which is written from the source). -/
def flattenSpec (criteria : Criteria) (path : String) :
    Except CritError (List (String × Criteria)) :=
  match criteria with
  | .dict kvs => flattenSpecDict kvs path
  | .list cs => flattenSpecList cs 0 path
  | v => .ok [(path, v)]

/-- Mapping case of `flattenSpec`: recurse into each key in order. -/
def flattenSpecDict (kvs : List (String × Criteria)) (path : String) :
    Except CritError (List (String × Criteria)) :=
  match kvs with
  | [] => .ok []
  | (key, value) :: rest => do
      let xs ← flattenSpec value (path ++ "[" ++ key ++ "]")
      let ys ← flattenSpecDict rest path
      .ok (xs ++ ys)

/-- Sequence case of `flattenSpec`: recurse into each index in order. -/
def flattenSpecList (cs : List Criteria) (i : Nat) (path : String) :
    Except CritError (List (String × Criteria)) :=
  match cs with
  | [] => .ok []
  | c :: rest => do
      let xs ← flattenSpec c (path ++ "[" ++ toString i ++ "]")
      let ys ← flattenSpecList rest (i + 1) path
      .ok (xs ++ ys)

end

mutual

/-- The amended flattening algorithm, written from the amended claim:
a mapping node iterates its keys in order appending `[key]` to the path,
recursing only when the value is a sequence and otherwise emitting the
`(path, value)` pair as it stands (even when the value is a mapping); a
sequence node recurses into each index appending `[index]`; any node that
is neither a mapping nor a sequence at a recursion entry point (the root
or a sequence element) fails with the unsupported-criteria error. -/
def flattenAmended (criteria : Criteria) (path : String) :
    Except CritError (List (String × Criteria)) :=
  match criteria with
  | .dict kvs => flattenAmendedDict kvs path
  | .list cs => flattenAmendedList cs 0 path
  | _ => .error .notImplemented

/-- Mapping case of `flattenAmended`: recurse only into sequence-valued
keys, emit every other value as a leaf pair. -/
def flattenAmendedDict (kvs : List (String × Criteria)) (path : String) :
    Except CritError (List (String × Criteria)) :=
  match kvs with
  | [] => .ok []
  | (key, value) :: rest =>
    let child := path ++ "[" ++ key ++ "]"
    match value with
    | .list cs => do
        let xs ← flattenAmended (.list cs) child
        let ys ← flattenAmendedDict rest path
        .ok (xs ++ ys)
    | v => do
        let ys ← flattenAmendedDict rest path
        .ok ((child, v) :: ys)

/-- Sequence case of `flattenAmended`: recurse into each index in order. -/
def flattenAmendedList (cs : List Criteria) (i : Nat) (path : String) :
    Except CritError (List (String × Criteria)) :=
  match cs with
  | [] => .ok []
  | c :: rest => do
      let xs ← flattenAmended c (path ++ "[" ++ toString i ++ "]")
      let ys ← flattenAmendedList rest (i + 1) path
      .ok (xs ++ ys)

end

/-- One entry of a method signature as seen by `inspect.signature` inside
`__get_request_parameters`: the declared argument name, its declared
default (`Option.none` models `inspect.Parameter.empty`, i.e. a required
argument) and the current runtime value found in the caller's locals. -/
structure ParamSpec where
  name : String
  default : Option PyVal
  value : PyVal

/-- The `if parameter_name in rename: parameter_name = rename[...]` step
of `__get_request_parameters`. -/
def renameKey (rename : List (String × String)) (n : String) : String :=
  match rename.lookup n with
  | some r => r
  | Option.none => n

/-- Embeds `RequestHandler.__get_request_parameters` (basic_wrapper.py
lines 361-400): walk the calling method's declared arguments in order;
an argument is emitted only when it has a declared default and its value
differs from it (Python `!=`, here `beqPyVal`); list and tuple values are
emitted one element at a time under the renamed key suffixed `[]`, any
other value as a single `(key, value)` parameter. -/
def __get_request_parameters (sig : List ParamSpec)
    (rename : List (String × String)) : List (String × PyVal) :=
  match sig with
  | [] => []
  | p :: rest =>
    let parameter_name := renameKey rename p.name
    let emitted :=
      match p.default with
      | some d =>
        if beqPyVal p.value d then []
        else
          match p.value with
          | .list xs => xs.map (fun item => (parameter_name ++ "[]", item))
          | v => [(parameter_name, v)]
      | Option.none => []
    emitted ++ __get_request_parameters rest rename

/-- Python whitespace as recognised by `str.strip` and `str.split`. -/
def pyIsSpace (c : Char) : Bool :=
  c = ' ' || c = '\t' || c = '\n' || c = '\r' || c = '\x0b' || c = '\x0c'

/-- Python `str.strip()` on the character list of a string. -/
def pyStrip (cs : List Char) : List Char :=
  ((cs.dropWhile pyIsSpace).reverse.dropWhile pyIsSpace).reverse

/-- Worker of `pySplit`: accumulate the current word (reversed). -/
def pySplitAux : List Char → List Char → List String
  | [], acc => if acc.isEmpty then [] else [String.mk acc.reverse]
  | c :: cs, acc =>
    if pyIsSpace c then
      if acc.isEmpty then pySplitAux cs []
      else String.mk acc.reverse :: pySplitAux cs []
    else pySplitAux cs (c :: acc)

/-- Python `str.split()` with no argument: split on whitespace runs and
drop empty fields. -/
def pySplit (s : String) : List String :=
  pySplitAux s.data []

/-- Numeric value of an ASCII digit character. -/
def digitVal (c : Char) : Nat :=
  c.toNat - 48

/-- Worker of `digitsWithUnderscores`: after at least one digit, accept
further digits and single underscores between digits, as Python's `int`
grammar does. -/
def digitsUAux : List Char → Nat → Option Nat
  | [], acc => some acc
  | c :: rest, acc =>
    if c = '_' then
      match rest with
      | c2 :: rest2 =>
          if c2.isDigit then digitsUAux rest2 (acc * 10 + digitVal c2)
          else Option.none
      | [] => Option.none
    else if c.isDigit then digitsUAux rest (acc * 10 + digitVal c)
    else Option.none

/-- A nonempty run of decimal digits with optional single underscores
between digits, per the digit-part grammar of Python's `int(str)`. -/
def digitsWithUnderscores : List Char → Option Nat
  | [] => Option.none
  | c :: rest =>
    if c.isDigit then digitsUAux rest (digitVal c) else Option.none

/-- Embeds Python `int(s)` on a decimal string: surrounding whitespace is
stripped, an optional sign is accepted, then digits (with underscores);
`Option.none` models the `ValueError` raised on anything else. -/
def pyIntOfString (s : String) : Option Int :=
  match pyStrip s.data with
  | [] => Option.none
  | c :: rest =>
    if c = '+' then (digitsWithUnderscores rest).map Int.ofNat
    else if c = '-' then
      (digitsWithUnderscores rest).map (fun n => -(Int.ofNat n))
    else (digitsWithUnderscores (c :: rest)).map Int.ofNat

/-- Longest digit prefix of a character list, with the remainder: the
behaviour of a greedy `\d+` regex group. -/
def takeDigits : List Char → List Char × List Char
  | [] => ([], [])
  | c :: cs =>
    if c.isDigit then
      let r := takeDigits cs
      (c :: r.1, r.2)
    else ([], c :: cs)

/-- Value of a big-endian digit-character run. -/
def digitsToNat (ds : List Char) : Nat :=
  ds.foldl (fun a c => a * 10 + digitVal c) 0

/-- Embeds `re.match(r"(?P<start>\d+)-(?P<end>\d+)/(?P<count>\d+)", s)`
followed by `int` on the three named groups: an anchored prefix match,
trailing text permitted. -/
def matchContentRange (s : String) : Option (Nat × Nat × Nat) :=
  let p1 := takeDigits s.data
  if p1.1.isEmpty then Option.none else
  match p1.2 with
  | [] => Option.none
  | c :: r2 =>
    if c = '-' then
      let p2 := takeDigits r2
      if p2.1.isEmpty then Option.none else
      match p2.2 with
      | [] => Option.none
      | c2 :: r4 =>
        if c2 = '/' then
          let p3 := takeDigits r4
          if p3.1.isEmpty then Option.none
          else some (digitsToNat p1.1, digitsToNat p2.1, digitsToNat p3.1)
        else Option.none
    else Option.none

/-- The two response headers `response_range` reads; `Option.none` models
absence of the header from the previous response. -/
structure Headers where
  contentRange : Option String
  acceptRange : Option String

/-- The `ResponseRange` dataclass (basic_wrapper.py lines 39-66). -/
structure ResponseRange where
  start : Int
  stop : Int
  count : Int
  max : Int
deriving DecidableEq

/-- How the `response_range` property can fail: `noPriorRequest` is
`GLPIError("No request made")`, `noRange` is `GLPIError("The previous
request did not return a range")`, and `pyFailure` stands for an uncaught
Python exception (regex mismatch, missing token or bad `int`). -/
inductive RangeErr where
  | noPriorRequest
  | noRange
  | pyFailure
deriving DecidableEq

/-- Embeds the `RequestHandler.response_range` property (basic_wrapper.py
lines 225-251), reading the recorded `__response_header` state. -/
def response_range (response_header : Option Headers) :
    Except RangeErr ResponseRange :=
  match response_header with
  | Option.none => .error .noPriorRequest
  | some h =>
    match h.contentRange, h.acceptRange with
    | some content_range, some accept_header =>
      match pySplit (String.mk (pyStrip accept_header.data)) |>.get? 1 with
      | Option.none => .error .pyFailure
      | some tok =>
        match pyIntOfString tok with
        | Option.none => .error .pyFailure
        | some accept_range =>
          match matchContentRange content_range with
          | Option.none => .error .pyFailure
          | some (s, e, c) =>
            .ok ⟨Int.ofNat s, Int.ofNat e, Int.ofNat c, accept_range⟩
    | _, _ => .error .noRange

/-- The observable state of a `RequestHandler` instance (basic_wrapper.py
lines 267-288): credentials from `__init__` plus the two mutable private
fields `__session_token` and `__response_header`. -/
structure RequestHandler where
  host_url : String
  app_token : String
  user_api_token : String
  verify_tls : Bool
  __session_token : Option String
  __response_header : Option Headers

/-- Embeds `RequestHandler.__init__`: credentials stored, no session
token, no recorded response header. -/
def RequestHandler.init (host_url app_token user_api_token : String)
    (verify_tls : Bool) : RequestHandler :=
  ⟨host_url, app_token, user_api_token, verify_tls, Option.none, Option.none⟩

/-- Exceptions surfaced by the session-lifecycle methods.  In the source
the state checks raise plain `GLPIError(msg)` (the spec's `StateFailure`),
non-2xx transport responses raise `GLPIRequestError` (the spec's
`TransportFailure`), recognised remote conditions are re-raised as a
clearer `GLPIError` (the spec's `DomainFailure`), and `pyFailure` stands
for an uncaught Python exception escaping the method. -/
inductive GErr where
  | stateFailure (msg : String)
  | transportFailure (status : Nat)
  | domainFailure (msg : String)
  | pyFailure
deriving DecidableEq

/-- The message of the `GLPIError` raised by the `session_token` property
on an uninitiated handler. -/
def notInitiatedMsg : String :=
  "Request handler was not initiated! Please call init_session" ++
  " if you want to start a new session."

/-- Embeds the `RequestHandler.session_token` property (basic_wrapper.py
lines 253-265): raises unless a session has been initiated. -/
def RequestHandler.session_token (self : RequestHandler) :
    Except GErr String :=
  match self.__session_token with
  | Option.none => .error (.stateFailure notInitiatedMsg)
  | some t => .ok t

/-- The remote side of one HTTP exchange, supplied as an oracle: response
status, response headers, the JSON-decoded body (`Option.none` when the
body is not valid JSON) and the raw body bytes. -/
structure HttpResponse where
  status : Nat
  headers : Headers
  json : Option PyVal
  content : List Nat

/-- Embeds `RequestHandler.init_session` (basic_wrapper.py lines
298-308): refuse a second initiation, otherwise perform the `initSession`
GET (`_do_get` records the response headers and raises
`GLPIRequestError` on status >= 400) and store the `session_token` field
of the JSON body.  A missing or non-string token field would escape as an
uncaught Python exception. -/
def init_session (self : RequestHandler) (resp : HttpResponse) :
    Except GErr RequestHandler :=
  match self.__session_token with
  | some _ => .error (.stateFailure "Session already initialized.")
  | Option.none =>
    let self' := { self with __response_header := some resp.headers }
    if resp.status ≥ 400 then .error (.transportFailure resp.status)
    else
      match resp.json with
      | some (.dict kvs) =>
        match kvs.lookup "session_token" with
        | some (.str tok) => .ok { self' with __session_token := some tok }
        | _ => .error .pyFailure
      | _ => .error .pyFailure

/-- Outcome of the `except GLPIRequestError` block of `kill_session`:
either the recognised condition is re-raised as `GLPIError("Session
expired")`, or the original `GLPIRequestError` is re-raised, or an
uncaught Python exception (`TypeError` from `len`, `KeyError` from
indexing a dict with `0`) escapes. -/
inductive KillOutcome where
  | sessionExpired
  | raiseOriginal
  | pyError
deriving DecidableEq

/-- Python `len(v)`: defined for strings, lists and dicts, a `TypeError`
(`Option.none`) on numbers, booleans and `None`. -/
def pyLen : PyVal → Option Nat
  | .str s => some s.length
  | .list xs => some xs.length
  | .dict kvs => some kvs.length
  | _ => Option.none

/-- Python `v[0]`: first element of a list, one-character string of a
string; on a dict it is a lookup of the key `0`, which fails with
`KeyError` since JSON object keys are strings; `len` has already ruled
the remaining shapes out. -/
def pyIndexZero : PyVal → Option PyVal
  | .list xs => xs.head?
  | .str s => (s.data.head?).map (fun c => .str (String.mk [c]))
  | _ => Option.none

/-- Embeds the `except GLPIRequestError as err` handler of `kill_session`
(basic_wrapper.py lines 416-429), as a function of the failing response's
status and JSON-decoded body (`Option.none` models the
`JSONDecodeError` branch). -/
def killSessionOnRequestError (status : Nat) (body : Option PyVal) :
    KillOutcome :=
  if status = 401 then
    match body with
    | Option.none => .raiseOriginal
    | some message =>
      match pyLen message with
      | Option.none => .pyError
      | some n =>
        if 0 < n then
          match pyIndexZero message with
          | Option.none => .pyError
          | some v =>
            if beqPyVal v (.str "ERROR_SESSION_TOKEN_INVALID") then
              .sessionExpired
            else .raiseOriginal
        else .raiseOriginal
  else .raiseOriginal

/-- The `_do_get("killSession", ...)` call of `kill_session` wrapped in
its `try`/`except`: `_do_get` records the response headers and raises
`GLPIRequestError` on status >= 400, which the handler then inspects. -/
def killSessionRequest (self : RequestHandler) (resp : HttpResponse) :
    Except GErr RequestHandler :=
  let self' := { self with __response_header := some resp.headers }
  if resp.status ≥ 400 then
    match killSessionOnRequestError resp.status resp.json with
    | .sessionExpired => .error (.domainFailure "Session expired")
    | .raiseOriginal => .error (.transportFailure resp.status)
    | .pyError => .error .pyFailure
  else .ok self'

/-- Embeds `RequestHandler.kill_session` (basic_wrapper.py lines
402-430).  With no explicit `session_id` the code evaluates the
`session_token` property inside `if self.session_token is None:`, so an
uninitiated handler fails there with the property's `GLPIError`; an
initiated one clears `__session_token` and kills its own token. -/
def kill_session (self : RequestHandler) (session_id : Option String)
    (resp : HttpResponse) : Except GErr RequestHandler :=
  match session_id with
  | Option.none => do
      let _ ← self.session_token
      killSessionRequest { self with __session_token := Option.none } resp
  | some _ => killSessionRequest self resp

/-- Embeds `RequestHandler.download_user_profile_picture`
(basic_wrapper.py lines 1285-1294): `_do_method` reads the
`session_token` property (raising on an uninitiated handler) and, with
`on_error_raise=False`, never raises for the status; a 204 status is
answered with `GLPIError("User doesn't have a profile picture")`, any
other response yields the raw body bytes. -/
def download_user_profile_picture (self : RequestHandler)
    (resp : HttpResponse) : Except GErr (List Nat) :=
  match self.__session_token with
  | Option.none => .error (.stateFailure notInitiatedMsg)
  | some _ =>
    if resp.status = 204 then
      .error (.domainFailure "User doesn't have a profile picture")
    else .ok resp.content

/-- A Python dict key as they occur around `__keys_to_int`: the string
keys of a JSON-decoded record and the int keys the coercion creates. -/
inductive PyKey where
  | str (s : String)
  | int (n : Int)
deriving DecidableEq

/-- Python `d[k] = v` on an insertion-ordered dict: update in place when
the key is present, append at the end otherwise. -/
def pyDictSet {κ α : Type} [DecidableEq κ] (d : List (κ × α)) (k : κ)
    (v : α) : List (κ × α) :=
  if d.any (fun p => p.1 == k) then
    d.map (fun p => if p.1 = k then (k, v) else p)
  else d ++ [(k, v)]

/-- Python `del d[k]` on an insertion-ordered dict (keys are unique, so
filtering removes exactly the one entry). -/
def pyDictDel {κ α : Type} [DecidableEq κ] (d : List (κ × α)) (k : κ) :
    List (κ × α) :=
  d.filter (fun p => !(p.1 == k))

/-- One iteration of the `for k, v in list(dict_.items())` loop of
`__keys_to_int`: `int(k)` on a string key either fails with `ValueError`
(entry untouched) or yields `i`, after which `del dict_[k]; dict_[i] = v`
moves the entry to an int key at the end; `int` on an int key is the
identity, so such a key is deleted and re-inserted unchanged. -/
def keysToIntStep {α : Type} (d : List (PyKey × α)) (kv : PyKey × α) :
    List (PyKey × α) :=
  match kv.1 with
  | .str k =>
    match pyIntOfString k with
    | some i => pyDictSet (pyDictDel d (.str k)) (.int i) kv.2
    | Option.none => d
  | .int n => pyDictSet (pyDictDel d (.int n)) (.int n) kv.2

/-- Embeds `RequestHandler.__keys_to_int` (basic_wrapper.py lines
351-359): iterate over a snapshot of the items, mutating the dict as
`keysToIntStep` describes. -/
def keys_to_int {α : Type} (dict_ : List (PyKey × α)) :
    List (PyKey × α) :=
  dict_.foldl keysToIntStep dict_

/-- A JSON-decoded flat record (all keys are strings) as a `PyKey` dict. -/
def strRecord {α : Type} (d : List (String × α)) : List (PyKey × α) :=
  d.map (fun kv => (PyKey.str kv.1, kv.2))

/-- The coercion the spec describes: a key that `int` accepts becomes the
int key, any other key passes through unchanged. -/
def coerceKey (k : String) : PyKey :=
  match pyIntOfString k with
  | some i => PyKey.int i
  | Option.none => PyKey.str k

/-- Embeds the dict comprehension `{"id": id_ for id_ in ids}` of
`delete_items` (basic_wrapper.py line 1231): every iteration rebinds the
same key `"id"`, so insertion order evaluates to at most one entry. -/
def deleteItemsInput (ids : List Int) : List (String × Int) :=
  ids.foldl (fun d id_ => pyDictSet d "id" id_) []

/-- The request body built by `delete_items`: the `"input"` entry plus
the `"force_purge"` flag, which both `purge=True` and `log=False` set
(basic_wrapper.py lines 1231-1235). -/
structure DeleteItemsData where
  input : List (String × Int)
  force_purge : Option Bool
deriving DecidableEq

/-- Embeds the body construction of `RequestHandler.delete_items`
(basic_wrapper.py lines 1206-1237). -/
def delete_items_data (ids : List Int) (purge : Bool) (log : Bool) :
    DeleteItemsData :=
  let data : DeleteItemsData := ⟨deleteItemsInput ids, Option.none⟩
  let data := if purge then { data with force_purge := some true } else data
  if !log then { data with force_purge := some true } else data

/-- Decimal digit characters of `n`, most significant first, as produced
by Python's `str(n)` for a nonnegative number. -/
def toDecChars (n : Nat) : List Char :=
  if n = 0 then ['0'] else ((Nat.digits 10 n).map Nat.digitChar).reverse

/-- Decimal string of `n`. -/
def toDecString (n : Nat) : String :=
  String.mk (toDecChars n)

/-- Reducing `Except` bind on a success. -/
theorem exceptBindOk {ε α β : Type} (a : α) (f : α → Except ε β) :
    (Except.ok (ε := ε) a >>= f) = f a := rfl

/-- Reducing `Except` bind on an error. -/
theorem exceptBindErr {ε α β : Type} (e : ε) (f : α → Except ε β) :
    (Except.error (α := α) e >>= f) = .error (α := β) e := rfl

/-- Reducing `Except.map` on a success. -/
theorem exceptMapOk {ε α β : Type} (f : α → β) (a : α) :
    (Except.ok (ε := ε) a).map f = .ok (f a) := rfl

/-- Reducing `Except.map` on an error. -/
theorem exceptMapErr {ε α β : Type} (f : α → β) (e : ε) :
    (Except.error (α := α) e).map f = .error e := rfl

/-- C1 counterexample: the flattener does not implement the claimed
algorithm.  On the sequence `[5]` the code raises the unsupported-type
error where the claimed algorithm emits `("criteria[0]", 5)`; on a
mapping-valued key the code emits the nested mapping as a leaf value
where the claimed algorithm recurses into it. -/
theorem add_criteria_counterexample :
    add_criteria_to_parameters (.list [.int 5]) [] "criteria"
        = .error .notImplemented
    ∧ flattenSpec (.list [.int 5]) "criteria"
        = .ok [("criteria[0]", .int 5)]
    ∧ add_criteria_to_parameters
        (.dict [("a", .dict [("b", .int 1)])]) [] "criteria"
        = .ok [("criteria[a]", .dict [("b", .int 1)])]
    ∧ flattenSpec (.dict [("a", .dict [("b", .int 1)])]) "criteria"
        = .ok [("criteria[a][b]", .int 1)] :=
  ⟨rfl, rfl, rfl, rfl⟩

/-- C1 (amended): `add_criteria_to_parameters` appends to `parameters`
exactly the pairs of the amended algorithm `flattenAmended`, in the same
order: mapping nodes iterate keys in order appending `[key]`, recursing
only into sequence values and emitting every other value as a leaf pair;
sequence nodes recurse into each index appending `[index]`; any other
node at a recursion entry point fails with the unsupported error. -/
theorem add_criteria_refines_amended :
    ∀ (c : Criteria) (parameters : List (String × Criteria))
      (father : String),
      add_criteria_to_parameters c parameters father
        = (flattenAmended c father).map (fun out => parameters ++ out) := by
  refine add_criteria_to_parameters.induct
    (fun c parameters father =>
      add_criteria_to_parameters c parameters father
        = (flattenAmended c father).map (fun out => parameters ++ out))
    (fun cs i parameters father =>
      addCriteriaList cs i parameters father
        = (flattenAmendedList cs i father).map (fun out => parameters ++ out))
    (fun kvs parameters father =>
      addCriteriaDict kvs parameters father
        = (flattenAmendedDict kvs father).map (fun out => parameters ++ out))
    ?_ ?_ ?_ ?_ ?_ ?_ ?_ ?_
  · intro parameters father kvs h3
    simpa [add_criteria_to_parameters, flattenAmended] using h3
  · intro parameters father cs h2
    simpa [add_criteria_to_parameters, flattenAmended] using h2
  · intro t parameters father hnd hnl
    cases t with
    | dict kvs => exact absurd rfl (hnd kvs)
    | list cs => exact absurd rfl (hnl cs)
    | str s => rfl
    | int n => rfl
    | bool b => rfl
  · intro parameters father
    simp [addCriteriaDict, flattenAmendedDict, exceptMapOk]
  · intro parameters father key rest
    refine fun cs h1 h3 => ?_
    simp only [addCriteriaDict, flattenAmendedDict]
    rw [h1]
    cases hfa : flattenAmended (.list cs) (father ++ "[" ++ key ++ "]") with
    | error e => simp [exceptMapErr, exceptBindErr]
    | ok xs =>
      simp only [exceptMapOk, exceptBindOk]
      rw [h3 (parameters ++ xs)]
      cases hfd : flattenAmendedDict rest father with
      | error e => simp [exceptMapErr, exceptBindErr]
      | ok ys => simp [exceptMapOk, exceptBindOk, List.append_assoc]
  · intro parameters father key rest
    refine fun v hnl h3 => ?_
    have step : ∀ s' : Criteria,
        (∀ cs, s' = Criteria.list cs → False) →
        addCriteriaDict ((key, s') :: rest) parameters father
          = addCriteriaDict rest
              (parameters ++ [(father ++ "[" ++ key ++ "]", s')]) father
        ∧ flattenAmendedDict ((key, s') :: rest) father
          = (flattenAmendedDict rest father >>= fun ys =>
              Except.ok ((father ++ "[" ++ key ++ "]", s') :: ys)) := by
      intro s' hs'
      cases s' with
      | list cs => exact absurd rfl (hs' cs)
      | str s => exact ⟨rfl, rfl⟩
      | int n => exact ⟨rfl, rfl⟩
      | bool b => exact ⟨rfl, rfl⟩
      | dict kvs' => exact ⟨rfl, rfl⟩
    show addCriteriaDict ((key, v) :: rest) parameters father
      = Except.map (fun out => parameters ++ out)
          (flattenAmendedDict ((key, v) :: rest) father)
    rw [(step v hnl).1, (step v hnl).2, h3]
    cases hfd : flattenAmendedDict rest father with
    | error e => simp [exceptMapErr, exceptBindErr]
    | ok ys => simp [exceptMapOk, exceptBindOk, List.append_assoc]
  · intro i parameters father
    simp [addCriteriaList, flattenAmendedList, exceptMapOk]
  · intro i parameters father c rest h1 h2
    simp only [addCriteriaList, flattenAmendedList]
    rw [h1]
    cases hfa : flattenAmended c (father ++ "[" ++ toString i ++ "]") with
    | error e => simp [exceptMapErr, exceptBindErr]
    | ok xs =>
      simp only [exceptMapOk, exceptBindOk]
      rw [h2 (parameters ++ xs)]
      cases hfl : flattenAmendedList rest (i + 1) father with
      | error e => simp [exceptMapErr, exceptBindErr]
      | ok ys => simp [exceptMapOk, exceptBindOk, List.append_assoc]

/-- C2: if every declared optional argument of the calling method equals
its declared default value (Python `==`), the parameter builder emits the
empty parameter list; required arguments are never emitted at all. -/
theorem all_defaults_emit_empty (sig : List ParamSpec)
    (rename : List (String × String))
    (h : ∀ p ∈ sig, ∀ d, p.default = some d → beqPyVal p.value d = true) :
    __get_request_parameters sig rename = [] := by
  induction sig with
  | nil => rfl
  | cons p rest ih =>
    have hrest : ∀ q ∈ rest, ∀ d, q.default = some d →
        beqPyVal q.value d = true :=
      fun q hq => h q (List.mem_cons_of_mem _ hq)
    simp only [__get_request_parameters]
    cases hd : p.default with
    | none => simpa using ih hrest
    | some d =>
      have hpd := h p (List.mem_cons_self _ _) d hd
      simp [hpd, ih hrest]

/-- Witness for C2 at a concrete signature: one required argument and
two defaulted arguments left at their defaults emit nothing. -/
theorem all_defaults_emit_empty_witness :
    __get_request_parameters
      [⟨"item_type", Option.none, .str "Computer"⟩,
       ⟨"expand_dropdowns", some (.bool false), .bool false⟩,
       ⟨"range_", some .pynone, .pynone⟩]
      [("range_", "range")] = [] := by
  refine all_defaults_emit_empty _ _ ?_
  intro p hp d hd
  simp only [List.mem_cons, List.mem_singleton] at hp
  rcases hp with rfl | rfl | rfl | hp
  · exact absurd hd (by simp)
  · cases hd; rfl
  · cases hd; rfl
  · exact absurd hp (List.not_mem_nil p)

/-- C3: a sequence-valued optional argument whose value differs from its
default contributes exactly one parameter per element, in order, under
the renamed (or original) name suffixed with `[]`, leaving the
contributions of the surrounding arguments untouched. -/
theorem sequence_arg_emits_elements (pre post : List ParamSpec)
    (rename : List (String × String)) (name : String) (d : PyVal)
    (xs : List PyVal) (hne : beqPyVal (PyVal.list xs) d = false) :
    __get_request_parameters (pre ++ ⟨name, some d, .list xs⟩ :: post) rename
      = __get_request_parameters pre rename
        ++ xs.map (fun item => (renameKey rename name ++ "[]", item))
        ++ __get_request_parameters post rename := by
  induction pre with
  | nil =>
    simp only [List.nil_append, __get_request_parameters, hne]
    simp
  | cons p rest ih =>
    simp only [List.cons_append, __get_request_parameters, List.append_eq]
    rw [ih]
    simp [List.append_assoc]

/-- Witness for C3: `force_display=[1, 2]` (default `None`) is renamed to
`forcedisplay` and emitted elementwise. -/
theorem sequence_arg_emits_elements_witness :
    __get_request_parameters
      [⟨"force_display", some .pynone, .list [.int 1, .int 2]⟩]
      [("force_display", "forcedisplay")]
      = [("forcedisplay[]", .int 1), ("forcedisplay[]", .int 2)] := by
  simpa using sequence_arg_emits_elements [] []
    [("force_display", "forcedisplay")] "force_display" .pynone
    [.int 1, .int 2] rfl

/-- Setting the single `"id"` key over and over keeps one entry holding
the latest value. -/
theorem deleteItemsInput_loop (ids : List Int) (x : Int) :
    ids.foldl (fun d id_ => pyDictSet d "id" id_) [("id", x)]
      = [("id", ids.getLast?.getD x)] := by
  induction ids generalizing x with
  | nil => rfl
  | cons i is ih =>
    have hstep : pyDictSet [("id", x)] "id" i = [("id", i)] := rfl
    have htail : (i :: is).getLast?.getD x = is.getLast?.getD i := by
      cases is with
      | nil => rfl
      | cons j js =>
        rw [List.getLast?_cons_cons]
        obtain ⟨l, hl⟩ := Option.isSome_iff_exists.mp
          ((List.getLast?_isSome (l := j :: js)).mpr (by simp))
        simp [hl]
    simp only [List.foldl_cons, hstep, ih, htail]

/-- C10: the `"input"` value of the `delete_items` request body is the
single-entry mapping binding `"id"` to the last element of `ids`, for
every non-empty id list and every flag combination. -/
theorem delete_items_transmits_last_id (ids : List Int)
    (purge log : Bool) (z : Int) (hz : ids.getLast? = some z) :
    (delete_items_data ids purge log).input = [("id", z)] := by
  have hinput : (delete_items_data ids purge log).input
      = deleteItemsInput ids := by
    simp only [delete_items_data]
    cases purge <;> cases log <;> rfl
  rw [hinput]
  cases ids with
  | nil => simp at hz
  | cons i is =>
    have h0 : pyDictSet ([] : List (String × Int)) "id" i = [("id", i)] := rfl
    have := deleteItemsInput_loop is i
    simp only [deleteItemsInput, List.foldl_cons, h0, this]
    have : is.getLast?.getD i = z := by
      cases is with
      | nil =>
        simp only [List.getLast?_singleton, Option.some.injEq] at hz
        simpa using hz
      | cons j js =>
        rw [List.getLast?_cons_cons] at hz
        simp [hz]
    rw [this]

/-- Witness for C10: three supplied ids, only the last is transmitted. -/
theorem delete_items_transmits_last_id_witness :
    (delete_items_data [4, 8, 15] false true).input = [("id", 15)] :=
  delete_items_transmits_last_id [4, 8, 15] false true 15 rfl

/-- Deleting an absent key leaves a Python dict unchanged. -/
theorem pyDictDel_of_not_mem {κ α : Type} [DecidableEq κ]
    (d : List (κ × α)) (k : κ) (h : ∀ p ∈ d, p.1 ≠ k) :
    pyDictDel d k = d := by
  simp only [pyDictDel]
  refine List.filter_eq_self.mpr ?_
  intro p hp
  simpa using h p hp

/-- Setting an absent key appends the new entry at the end. -/
theorem pyDictSet_of_not_mem {κ α : Type} [DecidableEq κ]
    (d : List (κ × α)) (k : κ) (v : α) (h : ∀ p ∈ d, p.1 ≠ k) :
    pyDictSet d k v = d ++ [(k, v)] := by
  simp only [pyDictSet]
  have hany : d.any (fun p => p.1 == k) = false := by
    rw [List.any_eq_false]
    intro p hp
    simpa using h p hp
  simp [hany]

/-- `del` distributes over concatenation of dict fragments. -/
theorem pyDictDel_append {κ α : Type} [DecidableEq κ]
    (l₁ l₂ : List (κ × α)) (k : κ) :
    pyDictDel (l₁ ++ l₂) k = pyDictDel l₁ k ++ pyDictDel l₂ k := by
  simp [pyDictDel, List.filter_append]

/-- Invariant of the `__keys_to_int` loop: with the not-yet-processed
snapshot suffix `S` still in place between the kept non-coercible prefix
entries `A` and the already-created int-keyed entries `B`, the loop
keeps the non-coercible entries of `S` in place and moves its coercible
entries, coerced, to the end in order. -/
theorem keysToIntLoop {α : Type} (S : List (String × α))
    (A B : List (PyKey × α))
    (hA : ∀ p ∈ A, ∃ k, p.1 = PyKey.str k ∧ pyIntOfString k = Option.none)
    (hB : ∀ p ∈ B, ∃ i, p.1 = PyKey.int i)
    (hS : (S.map Prod.fst).Nodup)
    (hSB : ∀ kv ∈ S, ∀ i, pyIntOfString kv.1 = some i →
        ∀ p ∈ B, p.1 ≠ PyKey.int i)
    (hSint : (S.filterMap (fun kv => pyIntOfString kv.1)).Nodup) :
    (strRecord S).foldl keysToIntStep (A ++ strRecord S ++ B)
      = A ++ strRecord (S.filter (fun kv => (pyIntOfString kv.1).isNone))
        ++ B ++ S.filterMap (fun kv =>
            (pyIntOfString kv.1).map (fun i => (PyKey.int i, kv.2))) := by
  induction S generalizing A B with
  | nil => simp [strRecord]
  | cons kv S' ih =>
    obtain ⟨k, v⟩ := kv
    rw [List.map_cons, List.nodup_cons] at hS
    obtain ⟨hk_notin, hS'⟩ := hS
    have hrec : strRecord ((k, v) :: S') = (PyKey.str k, v) :: strRecord S' :=
      rfl
    cases hp : pyIntOfString k with
    | none =>
      have hstep : keysToIntStep
          (A ++ strRecord ((k, v) :: S') ++ B) (PyKey.str k, v)
          = A ++ strRecord ((k, v) :: S') ++ B := by
        simp [keysToIntStep, hp]
      have hshift : A ++ strRecord ((k, v) :: S') ++ B
          = (A ++ [(PyKey.str k, v)]) ++ strRecord S' ++ B := by
        simp [hrec, List.append_assoc]
      have hA' : ∀ p ∈ A ++ [(PyKey.str k, v)], ∃ k',
          p.1 = PyKey.str k' ∧ pyIntOfString k' = Option.none := by
        intro p hpA
        rcases List.mem_append.mp hpA with hpA | hpA
        · exact hA p hpA
        · rw [List.mem_singleton.mp hpA]
          exact ⟨k, rfl, hp⟩
      have hSB' : ∀ kv' ∈ S', ∀ i, pyIntOfString kv'.1 = some i →
          ∀ p ∈ B, p.1 ≠ PyKey.int i :=
        fun kv' hkv' => hSB kv' (List.mem_cons_of_mem _ hkv')
      have hSint' :
          (S'.filterMap (fun kv => pyIntOfString kv.1)).Nodup := by
        rw [List.filterMap_cons] at hSint
        simpa [hp] using hSint
      rw [hrec, List.foldl_cons]
      rw [← hrec, hstep, hshift, ih _ _ hA' hB hS' hSB' hSint']
      simp [hrec, strRecord, List.filter_cons, List.filterMap_cons, hp,
        List.append_assoc]
    | some i =>
      have hdelA : pyDictDel A (PyKey.str k) = A := by
        refine pyDictDel_of_not_mem _ _ ?_
        intro p hpA
        obtain ⟨k', hk', hn⟩ := hA p hpA
        rw [hk']
        intro heq
        injection heq with heq'
        rw [heq', hp] at hn
        cases hn
      have hdelB : pyDictDel B (PyKey.str k) = B := by
        refine pyDictDel_of_not_mem _ _ ?_
        intro p hpB
        obtain ⟨i', hi'⟩ := hB p hpB
        rw [hi']
        intro heq
        cases heq
      have hstrkeys : ∀ p ∈ strRecord S', ∃ kv' ∈ S',
          p.1 = PyKey.str kv'.1 := by
        intro p hpS
        obtain ⟨kv', hkv', hkvp⟩ := List.mem_map.mp hpS
        exact ⟨kv', hkv', by rw [← hkvp]⟩
      have hdelS : pyDictDel (strRecord S') (PyKey.str k) = strRecord S' := by
        refine pyDictDel_of_not_mem _ _ ?_
        intro p hpS
        obtain ⟨kv', hkv', hk'⟩ := hstrkeys p hpS
        rw [hk']
        intro heq
        injection heq with heq'
        refine hk_notin ?_
        rw [← heq']
        exact List.mem_map.mpr ⟨kv', hkv', rfl⟩
      have hdel : pyDictDel (A ++ strRecord ((k, v) :: S') ++ B)
          (PyKey.str k) = A ++ strRecord S' ++ B := by
        rw [pyDictDel_append, pyDictDel_append, hdelA, hdelB, hrec]
        have hmid : pyDictDel ((PyKey.str k, v) :: strRecord S')
            (PyKey.str k) = strRecord S' := by
          simp only [pyDictDel, List.filter_cons]
          simpa [pyDictDel] using hdelS
        rw [hmid]
      have hset : pyDictSet (A ++ strRecord S' ++ B) (PyKey.int i) v
          = A ++ strRecord S' ++ B ++ [(PyKey.int i, v)] := by
        refine pyDictSet_of_not_mem _ _ _ ?_
        intro p hpM
        rcases List.mem_append.mp hpM with hpM | hpB
        · rcases List.mem_append.mp hpM with hpA | hpS
          · obtain ⟨k', hk', _⟩ := hA p hpA
            rw [hk']
            intro heq
            cases heq
          · obtain ⟨kv', _, hk'⟩ := hstrkeys p hpS
            rw [hk']
            intro heq
            cases heq
        · exact hSB (k, v) (List.mem_cons_self _ _) i hp p hpB
      have hstep : keysToIntStep
          (A ++ strRecord ((k, v) :: S') ++ B) (PyKey.str k, v)
          = A ++ strRecord S' ++ (B ++ [(PyKey.int i, v)]) := by
        simp only [keysToIntStep, hp, hdel, hset]
        simp [List.append_assoc]
      have hB' : ∀ p ∈ B ++ [(PyKey.int i, v)], ∃ i', p.1 = PyKey.int i' := by
        intro p hpB
        rcases List.mem_append.mp hpB with hpB | hpB
        · exact hB p hpB
        · rw [List.mem_singleton.mp hpB]
          exact ⟨i, rfl⟩
      have hint_head : i ∉ S'.filterMap (fun kv => pyIntOfString kv.1) := by
        rw [List.filterMap_cons] at hSint
        simp only [hp] at hSint
        exact (List.nodup_cons.mp hSint).1
      have hSint' :
          (S'.filterMap (fun kv => pyIntOfString kv.1)).Nodup := by
        rw [List.filterMap_cons] at hSint
        simp only [hp] at hSint
        exact (List.nodup_cons.mp hSint).2
      have hSB' : ∀ kv' ∈ S', ∀ i', pyIntOfString kv'.1 = some i' →
          ∀ p ∈ B ++ [(PyKey.int i, v)], p.1 ≠ PyKey.int i' := by
        intro kv' hkv' i' hpi' p hpB
        rcases List.mem_append.mp hpB with hpB | hpB
        · exact hSB kv' (List.mem_cons_of_mem _ hkv') i' hpi' p hpB
        · rw [List.mem_singleton.mp hpB]
          intro heq
          injection heq with heq'
          refine hint_head ?_
          rw [heq']
          exact List.mem_filterMap.mpr ⟨kv', hkv', hpi'⟩
      rw [hrec, List.foldl_cons, ← hrec, hstep]
      rw [ih A (B ++ [(PyKey.int i, v)]) hA hB' hS' hSB' hSint']
      simp [strRecord, List.filter_cons, List.filterMap_cons, hp,
        List.append_assoc]

/-- The kept-in-place part and the coerced part of the result of
`__keys_to_int` together are a permutation of the record with every
coercible key coerced in place. -/
theorem coerce_perm {α : Type} (d : List (String × α)) :
    (strRecord (d.filter (fun kv => (pyIntOfString kv.1).isNone))
      ++ d.filterMap (fun kv =>
          (pyIntOfString kv.1).map (fun i => (PyKey.int i, kv.2)))).Perm
      (d.map (fun kv => (coerceKey kv.1, kv.2))) := by
  induction d with
  | nil => simp [strRecord]
  | cons kv d' ih =>
    obtain ⟨k, v⟩ := kv
    cases hp : pyIntOfString k with
    | none =>
      have hcoerce : coerceKey k = PyKey.str k := by
        simp [coerceKey, hp]
      simp only [List.filter_cons, List.filterMap_cons, hp, List.map_cons,
        Option.isNone_none, Option.map_none, hcoerce]
      show ((PyKey.str k, v) :: (strRecord (d'.filter _) ++ _)).Perm _
      exact ih.cons _
    | some i =>
      have hcoerce : coerceKey k = PyKey.int i := by
        simp [coerceKey, hp]
      simp only [List.filter_cons, List.filterMap_cons, hp, List.map_cons,
        Option.isNone_some, Option.map_some, hcoerce]
      refine List.Perm.trans List.perm_middle ?_
      exact ih.cons _

/-- C6 counterexample: the coercion does not keep every associated
value.  On the record with keys `"1"` and `"01"`, which both parse as
the decimal integer `1`, processing `"01"` runs `del dict_["01"];
dict_[1] = "b"` and overwrites the entry the key `"1"` had produced:
the pair with value `"a"` is destroyed, so the result is not the input
record with keys replaced in place. -/
theorem keys_to_int_counterexample :
    keys_to_int [(PyKey.str "1", "a"), (PyKey.str "01", "b")]
      = [(PyKey.int 1, "b")]
    ∧ pyIntOfString "1" = some 1
    ∧ pyIntOfString "01" = some 1
    ∧ (keys_to_int [(PyKey.str "1", "a"), (PyKey.str "01", "b")]).map
        Prod.snd = ["b"]
    ∧ ¬ (keys_to_int [(PyKey.str "1", "a"), (PyKey.str "01", "b")]).Perm
        ([("1", "a"), ("01", "b")].map
          (fun kv => (coerceKey kv.1, kv.2))) := by
  refine ⟨rfl, rfl, rfl, rfl, ?_⟩
  intro h
  have hlen := h.length_eq
  rw [show keys_to_int [(PyKey.str "1", "a"), (PyKey.str "01", "b")]
    = [(PyKey.int 1, "b")] from rfl] at hlen
  simp at hlen

/-- C6 (amended): on a flat record whose coercible keys parse (as
Python `int`) to pairwise distinct integers, `__keys_to_int` keeps
every non-coercible entry in place (in order), moves every coercible
entry to an int key at the end (in order), and as a mapping the result
is exactly the input record with each decimal key replaced by its
integer form, every value kept, and every other entry untouched.  When
two keys parse to the same integer, the entry processed last overwrites
the earlier one and that pair is lost, as the counterexample shows. -/
theorem keys_to_int_spec {α : Type} (d : List (String × α))
    (hnd : (d.map Prod.fst).Nodup)
    (hint : (d.filterMap (fun kv => pyIntOfString kv.1)).Nodup) :
    keys_to_int (strRecord d)
      = strRecord (d.filter (fun kv => (pyIntOfString kv.1).isNone))
        ++ d.filterMap (fun kv =>
            (pyIntOfString kv.1).map (fun i => (PyKey.int i, kv.2)))
    ∧ (keys_to_int (strRecord d)).Perm
        (d.map (fun kv => (coerceKey kv.1, kv.2))) := by
  have h := keysToIntLoop d [] [] (by simp) (by simp) hnd (by simp) hint
  have heq : keys_to_int (strRecord d)
      = strRecord (d.filter (fun kv => (pyIntOfString kv.1).isNone))
        ++ d.filterMap (fun kv =>
            (pyIntOfString kv.1).map (fun i => (PyKey.int i, kv.2))) := by
    simpa [keys_to_int] using h
  exact ⟨heq, heq ▸ coerce_perm d⟩

/-- Witness for C6 at the spec's example: the record
`{"1": "a", "foo": "b"}` becomes `{1: "a", "foo": "b"}` as a mapping. -/
theorem keys_to_int_spec_witness :
    (keys_to_int [(PyKey.str "1", "a"), (PyKey.str "foo", "b")]).Perm
      [(PyKey.int 1, "a"), (PyKey.str "foo", "b")] := by
  have h := (keys_to_int_spec [("1", "a"), ("foo", "b")]
    (by decide) (by decide)).2
  simpa [strRecord, coerceKey, pyIntOfString, pyStrip,
    digitsWithUnderscores, digitsUAux, digitVal] using h

/-- C7: initiating a session while one is active fails with the session
state error, and terminating with no explicit token, or reading the
`session_token` property, on a handler with no initiated session fails
with the state error raised by the `session_token` property. -/
theorem session_state_failures :
    (∀ (self : RequestHandler) (t : String) (resp : HttpResponse),
        self.__session_token = some t →
        init_session self resp
          = .error (.stateFailure "Session already initialized."))
    ∧ (∀ (self : RequestHandler) (resp : HttpResponse),
        self.__session_token = Option.none →
        kill_session self Option.none resp
          = .error (.stateFailure notInitiatedMsg))
    ∧ (∀ self : RequestHandler, self.__session_token = Option.none →
        self.session_token = .error (.stateFailure notInitiatedMsg)) := by
  refine ⟨?_, ?_, ?_⟩
  · intro self t resp h
    simp [init_session, h]
  · intro self resp h
    simp only [kill_session, RequestHandler.session_token, h]
    rfl
  · intro self h
    simp [RequestHandler.session_token, h]

/-- Witness for C7 on a concrete handler: a second `init_session` fails,
and `kill_session`/`session_token` on a fresh handler fail. -/
theorem session_state_failures_witness :
    (init_session
        { RequestHandler.init "h" "a" "u" true with
            __session_token := some "tok" }
        ⟨200, ⟨Option.none, Option.none⟩, Option.none, []⟩
      = .error (.stateFailure "Session already initialized."))
    ∧ (kill_session (RequestHandler.init "h" "a" "u" true) Option.none
        ⟨200, ⟨Option.none, Option.none⟩, Option.none, []⟩
      = .error (.stateFailure notInitiatedMsg))
    ∧ ((RequestHandler.init "h" "a" "u" true).session_token
      = .error (.stateFailure notInitiatedMsg)) :=
  ⟨session_state_failures.1 _ "tok" _ rfl,
   session_state_failures.2.1 _ _ rfl,
   session_state_failures.2.2 _ rfl⟩

/-- C5: reading `response_range` before any request fails with the
no-prior-request error, and with a recorded response lacking either the
`Content-Range` or the `Accept-Range` header it fails with the no-range
error. -/
theorem response_range_state_errors :
    (∀ (hu ap ut : String) (vt : Bool),
        response_range (RequestHandler.init hu ap ut vt).__response_header
          = .error .noPriorRequest)
    ∧ (∀ h : Headers,
        h.contentRange = Option.none ∨ h.acceptRange = Option.none →
        response_range (some h) = .error .noRange) := by
  constructor
  · intro hu ap ut vt
    rfl
  · intro h hmiss
    obtain ⟨cr, ar⟩ := h
    rcases hmiss with hc | ha
    · cases hc
      cases ar <;> rfl
    · cases ha
      cases cr <;> rfl

/-- Witness for C5: a fresh handler has made no request, and a response
that carried only an `Accept-Range` header yields the no-range error. -/
theorem response_range_state_errors_witness :
    response_range (RequestHandler.init "h" "a" "u" true).__response_header
      = .error .noPriorRequest
    ∧ response_range (some ⟨Option.none, some "items 500"⟩)
      = .error .noRange :=
  ⟨response_range_state_errors.1 "h" "a" "u" true,
   response_range_state_errors.2 ⟨Option.none, some "items 500"⟩
     (Or.inl rfl)⟩

/-- C9: with an active session, `download_user_profile_picture` turns a
204 status into the recognised resource-absent signal (the descriptive
`GLPIError`, a domain failure rather than a transport failure), and any
other successful status yields the raw response bytes. -/
theorem download_picture_cases (self : RequestHandler) (t : String)
    (resp : HttpResponse) (hs : self.__session_token = some t) :
    (resp.status = 204 →
      download_user_profile_picture self resp
        = .error (.domainFailure "User doesn't have a profile picture"))
    ∧ (200 ≤ resp.status → resp.status < 300 → resp.status ≠ 204 →
      download_user_profile_picture self resp = .ok resp.content) := by
  constructor
  · intro h204
    simp [download_user_profile_picture, hs, h204]
  · intro _ _ hne
    simp [download_user_profile_picture, hs, hne]

/-- C8 counterexample: a 401 whose JSON body is the number `5` matches
none of the recognised patterns, yet the handler hits an uncaught
`TypeError` in `len(message)` instead of re-raising the original
transport error; the full `kill_session` then surfaces the uncaught
exception, not the original `GLPIRequestError`. -/
theorem kill_session_error_counterexample :
    killSessionOnRequestError 401 (some (.int 5)) = .pyError
    ∧ KillOutcome.pyError ≠ KillOutcome.raiseOriginal
    ∧ KillOutcome.pyError ≠ KillOutcome.sessionExpired
    ∧ kill_session (RequestHandler.init "h" "a" "u" true) (some "tok")
        ⟨401, ⟨Option.none, Option.none⟩, some (.int 5), []⟩
        = .error .pyFailure :=
  ⟨rfl, by decide, by decide, rfl⟩

/-- C8 (amended): a 401 whose JSON body is a non-empty list starting
with `"ERROR_SESSION_TOKEN_INVALID"` is re-raised as the domain error
`"Session expired"`; a different status code, an unparseable body, or a
list, string or empty-mapping body not matching re-raises the original
transport error unchanged; a 401 whose JSON body is a non-empty mapping,
a number, a boolean or null raises an uncaught Python error (`KeyError`
or `TypeError`) instead of the original one. -/
theorem kill_session_error_paths :
    (∀ rest : List PyVal,
        killSessionOnRequestError 401
          (some (.list (.str "ERROR_SESSION_TOKEN_INVALID" :: rest)))
          = .sessionExpired)
    ∧ (∀ (status : Nat) (body : Option PyVal), status ≠ 401 →
        killSessionOnRequestError status body = .raiseOriginal)
    ∧ killSessionOnRequestError 401 Option.none = .raiseOriginal
    ∧ (∀ (v : PyVal) (vs : List PyVal),
        beqPyVal v (.str "ERROR_SESSION_TOKEN_INVALID") = false →
        killSessionOnRequestError 401 (some (.list (v :: vs)))
          = .raiseOriginal)
    ∧ killSessionOnRequestError 401 (some (.list [])) = .raiseOriginal
    ∧ (∀ s : String,
        killSessionOnRequestError 401 (some (.str s)) = .raiseOriginal)
    ∧ killSessionOnRequestError 401 (some (.dict [])) = .raiseOriginal
    ∧ (∀ (k : String) (v : PyVal) (kvs : List (String × PyVal)),
        killSessionOnRequestError 401 (some (.dict ((k, v) :: kvs)))
          = .pyError)
    ∧ (∀ n : Int, killSessionOnRequestError 401 (some (.int n)) = .pyError)
    ∧ (∀ b : Bool, killSessionOnRequestError 401 (some (.bool b)) = .pyError)
    ∧ killSessionOnRequestError 401 (some .pynone) = .pyError
    ∧ (∀ (self : RequestHandler) (sid_ : String) (resp : HttpResponse)
        (rest : List PyVal),
        resp.status = 401 →
        resp.json = some (.list (.str "ERROR_SESSION_TOKEN_INVALID" :: rest)) →
        kill_session self (some sid_) resp
          = .error (.domainFailure "Session expired")) := by
  have hmatch : ∀ rest : List PyVal,
      killSessionOnRequestError 401
        (some (.list (.str "ERROR_SESSION_TOKEN_INVALID" :: rest)))
        = .sessionExpired := by
    intro rest
    simp [killSessionOnRequestError, pyLen, pyIndexZero, beqPyVal]
  refine ⟨hmatch, ?_, rfl, ?_, rfl, ?_, rfl, ?_, ?_, ?_, rfl, ?_⟩
  · intro status body hne
    simp [killSessionOnRequestError, hne]
  · intro v vs hne
    simp [killSessionOnRequestError, pyLen, pyIndexZero, hne]
  · intro s
    cases hd : s.data with
    | nil =>
      have hlen : s.length = 0 := by simp [String.length, hd]
      simp [killSessionOnRequestError, pyLen, hlen]
    | cons c cs =>
      have hlen : 0 < s.length := by simp [String.length, hd]
      have hne : (String.mk [c] == "ERROR_SESSION_TOKEN_INVALID") = false := by
        refine beq_eq_false_iff_ne.mpr ?_
        intro h
        have h1 : (String.mk [c]).length = 1 := rfl
        rw [h] at h1
        exact absurd h1 (by decide)
      simp [killSessionOnRequestError, pyLen, pyIndexZero, hd, hlen,
        beqPyVal, hne]
  · intro k v kvs
    simp [killSessionOnRequestError, pyLen, pyIndexZero]
  · intro n
    simp [killSessionOnRequestError, pyLen]
  · intro b
    simp [killSessionOnRequestError, pyLen]
  · intro self sid_ resp rest h401 hbody
    simp [kill_session, killSessionRequest, h401, hbody, hmatch]

/-- Witness for C8 at concrete responses: a non-401 failure, a 401 with
a different list message and a 401 with a string body all re-raise the
original error, and the matching 401 is translated to the domain error
by `kill_session` itself. -/
theorem kill_session_error_paths_witness :
    killSessionOnRequestError 404 (some (.list [])) = .raiseOriginal
    ∧ killSessionOnRequestError 401
        (some (.list [.str "ERROR_WRONG", .str "x"])) = .raiseOriginal
    ∧ killSessionOnRequestError 401 (some (.str "nope")) = .raiseOriginal
    ∧ kill_session (RequestHandler.init "h" "a" "u" true) (some "tok")
        ⟨401, ⟨Option.none, Option.none⟩,
         some (.list [.str "ERROR_SESSION_TOKEN_INVALID",
                      .str "session expired"]), []⟩
        = .error (.domainFailure "Session expired") :=
  ⟨kill_session_error_paths.2.1 404 _ (by decide),
   kill_session_error_paths.2.2.2.1 _ _ rfl,
   kill_session_error_paths.2.2.2.2.2.1 "nope",
   kill_session_error_paths.2.2.2.2.2.2.2.2.2.2.2 _ "tok" _ _ rfl rfl⟩

/-- Witness for C9: a 204 response signals the missing picture, a 200
response returns the bytes. -/
theorem download_picture_cases_witness :
    download_user_profile_picture
        { RequestHandler.init "h" "a" "u" true with
            __session_token := some "tok" }
        ⟨204, ⟨Option.none, Option.none⟩, Option.none, []⟩
      = .error (.domainFailure "User doesn't have a profile picture")
    ∧ download_user_profile_picture
        { RequestHandler.init "h" "a" "u" true with
            __session_token := some "tok" }
        ⟨200, ⟨Option.none, Option.none⟩, Option.none, [137, 80]⟩
      = .ok [137, 80] :=
  ⟨(download_picture_cases _ "tok" _ rfl).1 rfl,
   (download_picture_cases _ "tok" _ rfl).2 (by norm_num) (by norm_num)
     (by norm_num)⟩

/-- Digit characters below ten are digits. -/
theorem digitChar_isDigit : ∀ d < 10, (Nat.digitChar d).isDigit = true := by
  decide

/-- `digitVal` inverts `Nat.digitChar` below ten. -/
theorem digitVal_digitChar : ∀ d < 10, digitVal (Nat.digitChar d) = d := by
  decide

/-- Every character of a decimal rendering is a digit. -/
theorem toDecChars_digits (n : Nat) : ∀ c ∈ toDecChars n, c.isDigit = true := by
  intro c hc
  rw [toDecChars] at hc
  by_cases hn : n = 0
  · simp [hn] at hc
    rw [hc]
    decide
  · simp only [hn, if_false, List.mem_reverse, List.mem_map] at hc
    obtain ⟨d, hd, rfl⟩ := hc
    exact digitChar_isDigit d (Nat.digits_lt_base (by norm_num) hd)

/-- A decimal rendering is never empty. -/
theorem toDecChars_ne_nil (n : Nat) : toDecChars n ≠ [] := by
  rw [toDecChars]
  by_cases hn : n = 0
  · simp [hn]
  · simp only [hn, if_false, ne_eq, List.reverse_eq_nil_iff, List.map_eq_nil_iff]
    exact Nat.digits_ne_nil_iff_ne_zero.mpr hn

/-- Folding the big-endian digit characters of a digit list accumulates
its little-endian value. -/
theorem foldl_digitChars (L : List Nat) (k : Nat) (hL : ∀ d ∈ L, d < 10) :
    ((L.map Nat.digitChar).reverse).foldl (fun a c => a * 10 + digitVal c) k
      = k * 10 ^ L.length + Nat.ofDigits 10 L := by
  induction L generalizing k with
  | nil => simp [Nat.ofDigits_nil]
  | cons d ds ih =>
    have hds : ∀ d' ∈ ds, d' < 10 := fun d' hd' => hL d' (List.mem_cons_of_mem _ hd')
    rw [List.map_cons, List.reverse_cons, List.foldl_append,
      ih k hds]
    simp only [List.foldl_cons, List.foldl_nil,
      digitVal_digitChar d (hL d (List.mem_cons_self _ _)),
      Nat.ofDigits_cons, List.length_cons]
    ring

/-- Round trip: the numeric value of a decimal rendering is the number. -/
theorem digitsToNat_toDecChars (n : Nat) :
    digitsToNat (toDecChars n) = n := by
  by_cases hn : n = 0
  · rw [hn]
    rfl
  · rw [digitsToNat, toDecChars]
    simp only [hn, if_false]
    rw [foldl_digitChars _ 0
      (fun d hd => Nat.digits_lt_base (by norm_num) hd)]
    simp [Nat.ofDigits_digits]

/-- A greedy digit run followed by a non-digit (or the end) is matched
exactly. -/
theorem takeDigits_append (ds rest : List Char)
    (hds : ∀ c ∈ ds, c.isDigit = true)
    (hrest : ∀ c, rest.head? = some c → c.isDigit = false) :
    takeDigits (ds ++ rest) = (ds, rest) := by
  induction ds with
  | nil =>
    cases rest with
    | nil => rfl
    | cons c t =>
      simp [takeDigits, hrest c rfl]
  | cons c ds' ih =>
    simp only [List.cons_append, takeDigits,
      hds c (List.mem_cons_self _ _), if_true, List.append_eq,
      ih (fun c' hc' => hds c' (List.mem_cons_of_mem _ hc'))]

/-- A digit character is not Python whitespace. -/
theorem digit_not_space (c : Char) (h : c.isDigit = true) :
    pyIsSpace c = false := by
  by_contra hs
  rw [Bool.not_eq_false] at hs
  simp only [pyIsSpace, Bool.or_eq_true, decide_eq_true_eq] at hs
  rcases hs with ((((rfl | rfl) | rfl) | rfl) | rfl) | rfl <;>
    exact absurd h (by decide)

/-- `strip` is the identity when both ends are not whitespace. -/
theorem pyStrip_of_ends (cs : List Char)
    (h1 : ∀ c, cs.head? = some c → pyIsSpace c = false)
    (h2 : ∀ c, cs.reverse.head? = some c → pyIsSpace c = false) :
    pyStrip cs = cs := by
  have hfront : cs.dropWhile pyIsSpace = cs := by
    cases cs with
    | nil => rfl
    | cons c t =>
      rw [List.dropWhile_cons, h1 c rfl]
      simp
  rw [pyStrip, hfront]
  cases hrev : cs.reverse with
  | nil =>
    have : cs = [] := by simpa using congrArg List.reverse hrev
    simp [this]
  | cons d ds =>
    have hd := h2 d (by rw [hrev]; rfl)
    rw [List.dropWhile_cons, hd]
    simp only [Bool.false_eq_true, if_false]
    rw [← hrev, List.reverse_reverse]

/-- `split` on an all-non-whitespace run yields the single word made of
the accumulator and the run. -/
theorem pySplitAux_nonspace (ds : List Char) (acc : List Char)
    (h : ∀ c ∈ ds, pyIsSpace c = false) :
    pySplitAux ds acc
      = if acc.reverse ++ ds = [] then []
        else [String.mk (acc.reverse ++ ds)] := by
  induction ds generalizing acc with
  | nil =>
    simp only [pySplitAux, List.append_nil]
    cases acc with
    | nil => rfl
    | cons a as => simp [List.isEmpty]
  | cons c t ih =>
    rw [pySplitAux, h c (List.mem_cons_self _ _)]
    simp only [Bool.false_eq_true, if_false]
    rw [ih (c :: acc) (fun c' hc' => h c' (List.mem_cons_of_mem _ hc'))]
    simp [List.append_assoc]

/-- `"items <digits>"` splits into the two expected tokens. -/
theorem pySplit_items (ds : List Char) (hne : ds ≠ [])
    (hds : ∀ c ∈ ds, c.isDigit = true) :
    pySplitAux ('i' :: 't' :: 'e' :: 'm' :: 's' :: ' ' :: ds) []
      = ["items", String.mk ds] := by
  have hnonspace : ∀ c ∈ ds, pyIsSpace c = false :=
    fun c hc => digit_not_space c (hds c hc)
  have htail := pySplitAux_nonspace ds [] hnonspace
  simp only [List.reverse_nil, List.nil_append, if_neg hne] at htail
  simp [pySplitAux, pyIsSpace, htail]

/-- The underscore-digit scanner on a pure digit run folds its value. -/
theorem digitsUAux_digits (ds : List Char) (acc : Nat)
    (h : ∀ c ∈ ds, c.isDigit = true) :
    digitsUAux ds acc
      = some (ds.foldl (fun a c => a * 10 + digitVal c) acc) := by
  induction ds generalizing acc with
  | nil => rfl
  | cons c t ih =>
    have hc : c.isDigit = true := h c (List.mem_cons_self _ _)
    have hcu : ¬c = '_' := by
      intro rfl_
      rw [rfl_] at hc
      exact absurd hc (by decide)
    rw [digitsUAux.eq_def]
    dsimp only
    rw [if_neg hcu, if_pos hc,
      ih _ (fun c' hc' => h c' (List.mem_cons_of_mem _ hc'))]
    simp

/-- A pure digit run is accepted and valued as its decimal reading. -/
theorem digitsWithUnderscores_digits (ds : List Char) (hne : ds ≠ [])
    (h : ∀ c ∈ ds, c.isDigit = true) :
    digitsWithUnderscores ds = some (digitsToNat ds) := by
  cases ds with
  | nil => exact absurd rfl hne
  | cons c t =>
    rw [digitsWithUnderscores, if_pos (h c (List.mem_cons_self _ _)),
      digitsUAux_digits t _ (fun c' hc' => h c' (List.mem_cons_of_mem _ hc'))]
    rw [digitsToNat, List.foldl_cons]
    simp

/-- Python `int` on a pure digit string returns its decimal value. -/
theorem pyIntOfString_digits (ds : List Char) (hne : ds ≠ [])
    (h : ∀ c ∈ ds, c.isDigit = true) :
    pyIntOfString (String.mk ds) = some (Int.ofNat (digitsToNat ds)) := by
  have hstrip : pyStrip ds = ds := by
    refine pyStrip_of_ends ds ?_ ?_
    · intro c hc
      have hm : c ∈ ds.head? := by rw [hc]; rfl
      exact digit_not_space c (h c (List.mem_of_mem_head? hm))
    · intro c hc
      have hm : c ∈ ds.reverse.head? := by rw [hc]; rfl
      exact digit_not_space c
        (h c (List.mem_reverse.mp (List.mem_of_mem_head? hm)))
  rw [pyIntOfString]
  show (match pyStrip ds with
    | [] => Option.none
    | c :: rest =>
      if c = '+' then (digitsWithUnderscores rest).map Int.ofNat
      else if c = '-' then
        (digitsWithUnderscores rest).map (fun n => -(Int.ofNat n))
      else (digitsWithUnderscores (c :: rest)).map Int.ofNat)
    = some (Int.ofNat (digitsToNat ds))
  rw [hstrip]
  cases ds with
  | nil => exact absurd rfl hne
  | cons c t =>
    have hc : c.isDigit = true := h c (List.mem_cons_self _ _)
    have hplus : ¬c = '+' := by
      intro rfl_
      rw [rfl_] at hc
      exact absurd hc (by decide)
    have hminus : ¬c = '-' := by
      intro rfl_
      rw [rfl_] at hc
      exact absurd hc (by decide)
    show (if c = '+' then (digitsWithUnderscores t).map Int.ofNat
      else if c = '-' then
        (digitsWithUnderscores t).map (fun n => -(Int.ofNat n))
      else (digitsWithUnderscores (c :: t)).map Int.ofNat)
      = some (Int.ofNat (digitsToNat (c :: t)))
    rw [if_neg hplus, if_neg hminus,
      digitsWithUnderscores_digits (c :: t) (by simp) h]
    rfl

/-- The head of a run starting with a non-digit is not a digit. -/
theorem head_not_digit (x : Char) (l : List Char) (hx : x.isDigit = false) :
    ∀ c', ((x :: l).head? = some c') → c'.isDigit = false := by
  intro c' hc'
  rw [show (x :: l).head? = some x from rfl] at hc'
  cases hc'
  exact hx

/-- A decimal rendering is a nonempty character list. -/
theorem toDecChars_isEmpty (n : Nat) : (toDecChars n).isEmpty = false := by
  cases h' : toDecChars n with
  | nil => exact absurd h' (toDecChars_ne_nil n)
  | cons c t => rfl

/-- The `Content-Range` regex accepts every well-formed
`<start>-<end>/<count>` header and extracts the three numbers. -/
theorem matchContentRange_mk (s e c : Nat) :
    matchContentRange
      (toDecString s ++ "-" ++ toDecString e ++ "/" ++ toDecString c)
      = some (s, e, c) := by
  have hdata : (toDecString s ++ "-" ++ toDecString e ++ "/"
      ++ toDecString c).data
      = toDecChars s ++ ('-' :: (toDecChars e ++ ('/' :: toDecChars c))) := by
    simp [toDecString, String.data_append, List.append_assoc]
  have hd1 : takeDigits (toDecChars s
      ++ ('-' :: (toDecChars e ++ ('/' :: toDecChars c))))
      = (toDecChars s, '-' :: (toDecChars e ++ ('/' :: toDecChars c))) :=
    takeDigits_append _ _ (toDecChars_digits s)
      (head_not_digit '-' _ (by decide))
  have hd2 : takeDigits (toDecChars e ++ ('/' :: toDecChars c))
      = (toDecChars e, '/' :: toDecChars c) :=
    takeDigits_append _ _ (toDecChars_digits e)
      (head_not_digit '/' _ (by decide))
  have hd3 : takeDigits (toDecChars c) = (toDecChars c, []) := by
    have h0 := takeDigits_append (toDecChars c) [] (toDecChars_digits c)
      (by intro c' hc'; cases hc')
    simpa using h0
  simp only [matchContentRange, hdata, hd1, hd2, hd3]
  simp [toDecChars_isEmpty, digitsToNat_toDecChars]

/-- The `Accept-Range` parsing path of `response_range` accepts every
well-formed `items <max>` header. -/
theorem acceptRange_tokens (m : Nat) :
    pySplit (String.mk (pyStrip ("items " ++ toDecString m).data))
      = ["items", String.mk (toDecChars m)] := by
  have hadata : ("items " ++ toDecString m).data
      = 'i' :: 't' :: 'e' :: 'm' :: 's' :: ' ' :: toDecChars m := by
    simp [toDecString, String.data_append]
  have hstripA : pyStrip ('i' :: 't' :: 'e' :: 'm' :: 's' :: ' '
      :: toDecChars m)
      = 'i' :: 't' :: 'e' :: 'm' :: 's' :: ' ' :: toDecChars m := by
    refine pyStrip_of_ends _ ?_ ?_
    · intro c' hc'
      rw [show ('i' :: 't' :: 'e' :: 'm' :: 's' :: ' '
        :: toDecChars m).head? = some 'i' from rfl] at hc'
      cases hc'
      decide
    · intro c' hc'
      have hrev : ('i' :: 't' :: 'e' :: 'm' :: 's' :: ' '
          :: toDecChars m).reverse
          = (toDecChars m).reverse ++ [' ', 's', 'm', 'e', 't', 'i'] := by
        simp
      rw [hrev] at hc'
      cases hrm : (toDecChars m).reverse with
      | nil =>
        exact absurd (by simpa using congrArg List.reverse hrm)
          (toDecChars_ne_nil m)
      | cons d t =>
        rw [hrm, List.cons_append,
          show ((d :: (t ++ [' ', 's', 'm', 'e', 't', 'i'])).head?
            = some d) from rfl] at hc'
        cases hc'
        have hd : c' ∈ toDecChars m := by
          rw [← List.mem_reverse, hrm]
          exact List.mem_cons_self _ _
        exact digit_not_space c' (toDecChars_digits m c' hd)
  rw [pySplit, show (String.mk (pyStrip ("items "
    ++ toDecString m).data)).data
    = pyStrip ("items " ++ toDecString m).data from rfl, hadata, hstripA]
  exact pySplit_items _ (toDecChars_ne_nil m) (toDecChars_digits m)

/-- General round trip for the range headers: well-formed
`Content-Range` and `Accept-Range` values parse to their numbers. -/
theorem response_range_parses_general (s e c m : Nat) :
    response_range (some ⟨some (toDecString s ++ "-" ++ toDecString e
        ++ "/" ++ toDecString c), some ("items " ++ toDecString m)⟩)
      = .ok ⟨Int.ofNat s, Int.ofNat e, Int.ofNat c, Int.ofNat m⟩ := by
  have hint : pyIntOfString (String.mk (toDecChars m))
      = some (Int.ofNat m) := by
    rw [pyIntOfString_digits _ (toDecChars_ne_nil m) (toDecChars_digits m),
      digitsToNat_toDecChars]
  simp only [response_range, acceptRange_tokens, matchContentRange_mk]
  simp [List.get?, hint]

/-- C4: given `Content-Range: 0-49/120` and `Accept-Range: items 500`,
the `response_range` property yields start=0, end=49, count=120,
max=500; in general the three `Content-Range` numbers are extracted from
the `<start>-<end>/<count>` pattern and `max` from the second
whitespace-separated token of `Accept-Range`. -/
theorem response_range_parses_headers :
    response_range (some ⟨some "0-49/120", some "items 500"⟩)
      = .ok ⟨0, 49, 120, 500⟩
    ∧ ∀ s e c m : Nat,
        response_range (some ⟨some (toDecString s ++ "-" ++ toDecString e
            ++ "/" ++ toDecString c), some ("items " ++ toDecString m)⟩)
          = .ok ⟨Int.ofNat s, Int.ofNat e, Int.ofNat c, Int.ofNat m⟩ :=
  ⟨rfl, response_range_parses_general⟩

end Glpilib2
